import Mathlib

set_option maxRecDepth 8000

/-! Shallow embedding of the CRUMBS master core (CRUMBSMessage.h and the
master sketch it embeds): the message record, the comma-separated serial
command parser, the request/response exchange trace, and a spec-modelled
byte codec for the 28-byte wire format. -/

/-- Size of the CRUMBSMessage structure in bytes (CRUMBS_MESSAGE_SIZE). -/
def CRUMBS_MESSAGE_SIZE : Nat := 28

/-- CRUMBSMessage as the serial parser manipulates it. The float payload is
modelled by exact rationals: the parser claims concern decimal literals and
the zero default, for which the rational value is faithful. -/
structure CRUMBSMessage where
  sliceID : Nat
  typeID : Nat
  commandType : Nat
  data0 : ℚ
  data1 : ℚ
  data2 : ℚ
  data3 : ℚ
  data4 : ℚ
  data5 : ℚ
  errorFlags : Nat
  deriving DecidableEq

/-- C isspace characters, as used by the host trim and numeric parsers. -/
def isSpaceChar (c : Char) : Bool :=
  c == ' ' || c == '\t' || c == '\n' || c == '\x0b' || c == '\x0c' || c == '\r'

/-- Value of a list of decimal digit characters, most significant first. -/
def decNat (l : List Char) : Nat :=
  l.foldl (fun acc c => acc * 10 + (c.toNat - 48)) 0

/-- Split an optional leading sign off a numeric text: the sign factor and
the remaining characters. -/
def signSplit (t : List Char) : Int × List Char :=
  if t.take 1 = ['-'] then (-1, t.drop 1)
  else if t.take 1 = ['+'] then (1, t.drop 1)
  else (1, t)

/-- Modelled from the spec: the host integer parser behind String.toInt
(atol), which the source relies on — skip leading whitespace, an optional
sign, then the leading run of decimal digits; text with no leading digits
parses as 0 and no error is raised. -/
def atol (s : List Char) : Int :=
  (signSplit (s.dropWhile isSpaceChar)).1 *
    (decNat ((signSplit (s.dropWhile isSpaceChar)).2.takeWhile Char.isDigit) : Int)

/-- C cast of a long to uint8_t: reduce modulo 256. -/
def u8 (x : Int) : Nat := (x % 256).toNat

/-- Value of the decimal digits after the point. -/
def fracQ (l : List Char) : ℚ := (decNat l : ℚ) / (10 : ℚ) ^ l.length

/-- Unsigned decimal parse: leading digits, then an optional point followed
by fractional digits. -/
def parseUnsignedQ (t : List Char) : ℚ :=
  if (t.dropWhile Char.isDigit).take 1 = ['.'] then
    (decNat (t.takeWhile Char.isDigit) : ℚ) +
      fracQ (((t.dropWhile Char.isDigit).drop 1).takeWhile Char.isDigit)
  else (decNat (t.takeWhile Char.isDigit) : ℚ)

/-- Modelled from the spec: the host float parser behind String.toFloat
(atof), which the source relies on — skip whitespace, optional sign, decimal
digits with an optional fraction; non-numeric text parses as 0.0. -/
def atofQ (s : List Char) : ℚ :=
  ((signSplit (s.dropWhile isSpaceChar)).1 : ℚ) *
    parseUnsignedQ (signSplit (s.dropWhile isSpaceChar)).2

/-- Numeric-looking start for the integer parser: after whitespace and an
optional sign there is at least one decimal digit. atol yields 0 on every
text for which this is false. -/
def intNumeric (v : List Char) : Bool :=
  ((signSplit (v.dropWhile isSpaceChar)).2.headD ' ').isDigit

/-- Numeric-looking start for the float parser: after whitespace and an
optional sign there is a decimal digit, or a point followed by a decimal
digit. atofQ yields 0 on every text for which this is false. -/
def floatNumeric (v : List Char) : Bool :=
  ((signSplit (v.dropWhile isSpaceChar)).2.headD ' ').isDigit ||
    (decide ((signSplit (v.dropWhile isSpaceChar)).2.take 1 = ['.']) &&
      (((signSplit (v.dropWhile isSpaceChar)).2.drop 1).headD ' ').isDigit)

/-- Hexadecimal digit test, as in strtol base 16. -/
def isHexChar (c : Char) : Bool :=
  c.isDigit || ('a' ≤ c && c ≤ 'f') || ('A' ≤ c && c ≤ 'F')

/-- Value of one hexadecimal digit character. -/
def hexDigitVal (c : Char) : Nat :=
  if c.isDigit then c.toNat - 48
  else if 'a' ≤ c && c ≤ 'f' then c.toNat - 87
  else c.toNat - 55

/-- Value of a list of hexadecimal digit characters. -/
def hexNat (l : List Char) : Nat :=
  l.foldl (fun acc c => acc * 16 + hexDigitVal c) 0

/-- Does the list start with the given pattern list? -/
def startsWithL (p s : List Char) : Bool := decide (s.take p.length = p)

/-- Digit part of strtol base 16 after the sign: optional 0x/0X, then the
leading run of hexadecimal digits. -/
def hexBody (r : List Char) : Nat :=
  hexNat ((if startsWithL ['0', 'x'] r || startsWithL ['0', 'X'] r
           then r.drop 2 else r).takeWhile isHexChar)

/-- Modelled from the spec: strtol with base 16 as used on the request= path
of the source — skip whitespace, optional sign, optional 0x/0X, then the
leading hexadecimal digits; no digits parse as 0. -/
def strtolHex (s : List Char) : Int :=
  (signSplit (s.dropWhile isSpaceChar)).1 *
    (hexBody (signSplit (s.dropWhile isSpaceChar)).2 : Int)

/-- Remove leading whitespace. -/
def trimLeft (l : List Char) : List Char := l.dropWhile isSpaceChar

/-- Remove trailing whitespace. -/
def trimRight (l : List Char) : List Char := (l.reverse.dropWhile isSpaceChar).reverse

/-- Arduino String.trim: remove leading and trailing whitespace. -/
def trim (l : List Char) : List Char := trimRight (trimLeft l)

/-- Comma-separated segments of the input line, exactly as the loop in
parseSerialInput produces them: one segment before each comma and a final
segment running to the end of the line (the loop runs i up to and including
the length), so the empty line yields one empty segment. -/
def splitFields : List Char → List (List Char)
  | [] => [[]]
  | c :: rest =>
    if c = ',' then [] :: splitFields rest
    else
      match splitFields rest with
      | [] => [[c]]
      | f :: fs => (c :: f) :: fs

/-- The switch statement of parseSerialInput: apply the field with index idx
and text v to the (targetAddress, message) state; fields past index 9 are
ignored. -/
def applyField (idx : Nat) (v : List Char) (st : Nat × CRUMBSMessage) :
    Nat × CRUMBSMessage :=
  match idx with
  | 0 => (u8 (atol v), st.2)
  | 1 => (st.1, { st.2 with typeID := u8 (atol v) })
  | 2 => (st.1, { st.2 with commandType := u8 (atol v) })
  | 3 => (st.1, { st.2 with data0 := atofQ v })
  | 4 => (st.1, { st.2 with data1 := atofQ v })
  | 5 => (st.1, { st.2 with data2 := atofQ v })
  | 6 => (st.1, { st.2 with data3 := atofQ v })
  | 7 => (st.1, { st.2 with data4 := atofQ v })
  | 8 => (st.1, { st.2 with data5 := atofQ v })
  | 9 => (st.1, { st.2 with errorFlags := u8 (atol v) })
  | _ => st

/-- The field loop of parseSerialInput: apply each segment in order with its
running field count. -/
def runFields : List (List Char) → Nat → Nat × CRUMBSMessage → Nat × CRUMBSMessage
  | [], _, st => st
  | v :: vs, idx, st => runFields vs (idx + 1) (applyField idx v st)

/-- The defaulting block at the top of parseSerialInput: typeID, commandType,
data[0..5] and errorFlags are set to zero; sliceID is not written there (nor
anywhere else in the function). -/
def resetMessage (m : CRUMBSMessage) : CRUMBSMessage :=
  { m with typeID := 0, commandType := 0, data0 := 0, data1 := 0, data2 := 0,
           data3 := 0, data4 := 0, data5 := 0, errorFlags := 0 }

/-- parseSerialInput. m0 is the caller-provided message lvalue before the
call (uninitialized in the sketch, so kept abstract here); the source
returns false exactly when the loop counted fewer than 4 fields, modelled as
none. -/
def parseSerialInput (input : List Char) (m0 : CRUMBSMessage) :
    Option (Nat × CRUMBSMessage) :=
  let fields := splitFields input
  let st := runFields fields 0 (0, resetMessage m0)
  if fields.length < 4 then none else some st

/-- Closed form of the message built by the field loop (proved equal to the
loop below): each slot holds its segment's parsed value, out-of-range slots
fall back to the parse of the empty segment, which is zero; sliceID passes
through from the prior message. -/
def parsedMessage (fields : List (List Char)) (m0 : CRUMBSMessage) : CRUMBSMessage :=
  { sliceID := m0.sliceID
    typeID := u8 (atol (fields.getD 1 []))
    commandType := u8 (atol (fields.getD 2 []))
    data0 := atofQ (fields.getD 3 [])
    data1 := atofQ (fields.getD 4 [])
    data2 := atofQ (fields.getD 5 [])
    data3 := atofQ (fields.getD 6 [])
    data4 := atofQ (fields.getD 7 [])
    data5 := atofQ (fields.getD 8 [])
    errorFlags := u8 (atol (fields.getD 9 [])) }

/-- Join field texts with commas, the inverse of splitFields on comma-free
segments. -/
def joinComma : List (List Char) → List Char
  | [] => []
  | [f] => f
  | f :: g :: fs => f ++ ',' :: joinComma (g :: fs)

/-- Wire-level CRUMBSMessage for the codec: each float is carried as its
32-bit IEEE-754 bit pattern, so bit-exact float equality is equality of
patterns and the codec never interprets the payload. -/
structure WireMessage where
  sliceID : Nat
  typeID : Nat
  commandType : Nat
  data0 : Nat
  data1 : Nat
  data2 : Nat
  data3 : Nat
  data4 : Nat
  data5 : Nat
  errorFlags : Nat
  deriving DecidableEq

/-- Range invariants of WireMessage: byte fields below 256, float bit
patterns below 2^32. -/
def validWire (m : WireMessage) : Prop :=
  m.sliceID < 256 ∧ m.typeID < 256 ∧ m.commandType < 256 ∧
  m.data0 < 2 ^ 32 ∧ m.data1 < 2 ^ 32 ∧ m.data2 < 2 ^ 32 ∧
  m.data3 < 2 ^ 32 ∧ m.data4 < 2 ^ 32 ∧ m.data5 < 2 ^ 32 ∧ m.errorFlags < 256

instance (m : WireMessage) : Decidable (validWire m) := by
  unfold validWire; infer_instance

/-- Little-endian bytes of a 32-bit word. -/
def bytesLE (x : Nat) : List Nat :=
  [x % 256, x / 256 % 256, x / 65536 % 256, x / 16777216 % 256]

/-- 32-bit word from little-endian bytes. -/
def leVal (b0 b1 b2 b3 : Nat) : Nat :=
  b0 + 256 * b1 + 65536 * b2 + 16777216 * b3

/-- Modelled from the spec: Codec.Encode — the CRUMBS class encodeMessage is
not among the sources; per the spec it writes sliceID, typeID, commandType,
the six floats and errorFlags in that exact order with no padding, 28 bytes,
a fixed per-field byte order (little-endian here), and always succeeds. -/
def encodeMessage (m : WireMessage) : List Nat :=
  m.sliceID :: m.typeID :: m.commandType ::
    (bytesLE m.data0 ++ bytesLE m.data1 ++ bytesLE m.data2 ++
     bytesLE m.data3 ++ bytesLE m.data4 ++ bytesLE m.data5 ++ [m.errorFlags])

/-- Modelled from the spec: Codec.Decode — fails (TruncatedMessage) iff the
given length is below 28, otherwise reads the fields back in the same fixed
order; bytes past 28 are ignored and no domain validation is done. -/
def decodeMessage (buf : List Nat) (len : Nat) : Option WireMessage :=
  if len < CRUMBS_MESSAGE_SIZE then none
  else some
    { sliceID := buf.getD 0 0
      typeID := buf.getD 1 0
      commandType := buf.getD 2 0
      data0 := leVal (buf.getD 3 0) (buf.getD 4 0) (buf.getD 5 0) (buf.getD 6 0)
      data1 := leVal (buf.getD 7 0) (buf.getD 8 0) (buf.getD 9 0) (buf.getD 10 0)
      data2 := leVal (buf.getD 11 0) (buf.getD 12 0) (buf.getD 13 0) (buf.getD 14 0)
      data3 := leVal (buf.getD 15 0) (buf.getD 16 0) (buf.getD 17 0) (buf.getD 18 0)
      data4 := leVal (buf.getD 19 0) (buf.getD 20 0) (buf.getD 21 0) (buf.getD 22 0)
      data5 := leVal (buf.getD 23 0) (buf.getD 24 0) (buf.getD 25 0) (buf.getD 26 0)
      errorFlags := buf.getD 27 0 }

/-- Observable transport actions of the request= path. -/
inductive BusEvent where
  | requestFrom (addr : Nat) (quantity : Nat)
  | delayMs (ms : Nat)
  deriving DecidableEq

/-- Is the event a read request on the bus? -/
def isRequestEvent : BusEvent → Bool
  | BusEvent.requestFrom _ _ => true
  | _ => false

/-- The response-read loop of handleSerialInput: while a byte is available
and fewer than 28 were stored, read one byte into the buffer. avail is the
byte stream the transport makes available after the request. -/
def readLoop : List Nat → Nat → List Nat
  | [], _ => []
  | b :: rest, idx =>
    if idx < CRUMBS_MESSAGE_SIZE then b :: readLoop rest (idx + 1) else []

/-- The request= path of handleSerialInput: one Wire.requestFrom for exactly
28 bytes, a 50 ms settling delay, the byte-by-byte read loop, then a single
decode of the collected buffer with the exact collected count. Returns the
bus trace, the collected buffer and the decode result. -/
def requestResponse (addr : Nat) (avail : List Nat) :
    List BusEvent × List Nat × Option WireMessage :=
  let buf := readLoop avail 0
  ([BusEvent.requestFrom addr CRUMBS_MESSAGE_SIZE, BusEvent.delayMs 50],
   buf, decodeMessage buf buf.length)

/-- What one trimmed serial line makes the master do. -/
inductive MasterAction where
  | request (addr : Nat)
  | send (addr : Nat) (msg : CRUMBSMessage)
  | parseFailure
  deriving DecidableEq

/-- The literal request= that selects the read-request path. -/
def requestLit : List Char := ['r', 'e', 'q', 'u', 'e', 's', 't', '=']

/-- Address parsing on the request= path: strtol base 16 when the trimmed
text starts with 0x or 0X, String.toInt (decimal) otherwise; the result is
cast to uint8_t. -/
def parseAddress (s : List Char) : Nat :=
  if startsWithL ['0', 'x'] s || startsWithL ['0', 'X'] s then u8 (strtolHex s)
  else u8 (atol s)

/-- handleSerialInput on one available line: trim it, take the request= path
when the line starts with the literal (no message is built there), and
otherwise run the comma-separated message parser; m0 is the uninitialized
message lvalue of the sketch. -/
def handleSerialInput (input : List Char) (m0 : CRUMBSMessage) : MasterAction :=
  let inp := trim input
  if startsWithL requestLit inp then
    MasterAction.request (parseAddress (trim (inp.drop 8)))
  else
    match parseSerialInput inp m0 with
    | some (a, m) => MasterAction.send a m
    | none => MasterAction.parseFailure

/-! Helper lemmas. -/

theorem u8_atol_nil : u8 (atol []) = 0 := rfl

theorem atofQ_nil : atofQ [] = 0 := by with_unfolding_all rfl

theorem applyField_high (idx : Nat) (v : List Char) (st : Nat × CRUMBSMessage)
    (h : 10 ≤ idx) : applyField idx v st = st := by
  obtain ⟨n, rfl⟩ : ∃ n, idx = n + 10 := ⟨idx - 10, by omega⟩
  rfl

theorem runFields_high (l : List (List Char)) (idx : Nat) (st : Nat × CRUMBSMessage)
    (h : 10 ≤ idx) : runFields l idx st = st := by
  induction l generalizing idx st with
  | nil => rfl
  | cons v vs ih =>
    rw [runFields, applyField_high _ _ _ h]
    exact ih _ _ (by omega)

theorem runFields_eq (fields : List (List Char)) (m0 : CRUMBSMessage) :
    runFields fields 0 (0, resetMessage m0)
      = (u8 (atol (fields.getD 0 [])), parsedMessage fields m0) := by
  obtain _ | ⟨f0, _ | ⟨f1, _ | ⟨f2, _ | ⟨f3, _ | ⟨f4, _ | ⟨f5, _ | ⟨f6, _ | ⟨f7, _ |
    ⟨f8, _ | ⟨f9, rest⟩⟩⟩⟩⟩⟩⟩⟩⟩⟩ := fields <;>
    simp [runFields, applyField, parsedMessage, resetMessage, runFields_high,
      u8_atol_nil, atofQ_nil, List.getD]

/-- parseSerialInput in closed form. -/
theorem parseSerialInput_eq (input : List Char) (m0 : CRUMBSMessage) :
    parseSerialInput input m0
      = if (splitFields input).length < 4 then none
        else some (u8 (atol ((splitFields input).getD 0 [])),
                   parsedMessage (splitFields input) m0) := by
  rw [parseSerialInput, runFields_eq]

theorem splitFields_ne_nil (l : List Char) : splitFields l ≠ [] := by
  induction l with
  | nil => simp [splitFields]
  | cons c rest ih =>
    by_cases hc : c = ','
    · simp [splitFields, hc]
    · simp only [splitFields, hc, if_false]
      cases h : splitFields rest with
      | nil => simp
      | cons f fs => simp

theorem splitFields_length (l : List Char) :
    (splitFields l).length = l.count ',' + 1 := by
  induction l with
  | nil => rfl
  | cons c rest ih =>
    by_cases hc : c = ','
    · subst hc; simp [splitFields, List.count_cons, ih]
    · simp only [splitFields, hc, if_false]
      cases h : splitFields rest with
      | nil => exact absurd h (splitFields_ne_nil rest)
      | cons f fs =>
        rw [h] at ih
        simp only [List.length_cons, List.count_cons] at ih ⊢
        simp [hc, ih]

theorem splitFields_no_comma (v : List Char) (h : (',') ∉ v) :
    splitFields v = [v] := by
  induction v with
  | nil => rfl
  | cons c cs ih =>
    simp only [List.mem_cons, not_or] at h
    simp only [splitFields, Ne.symm h.1, if_false, ih h.2]

theorem splitFields_append_comma (v rest : List Char) (h : (',') ∉ v) :
    splitFields (v ++ ',' :: rest) = v :: splitFields rest := by
  induction v with
  | nil => simp [splitFields]
  | cons c cs ih =>
    simp only [List.mem_cons, not_or] at h
    simp only [List.cons_append, splitFields, Ne.symm h.1, if_false, List.append_eq,
      ih h.2]

theorem splitFields_joinComma (fs : List (List Char)) (hne : fs ≠ [])
    (hc : ∀ v ∈ fs, (',') ∉ v) : splitFields (joinComma fs) = fs := by
  induction fs with
  | nil => exact absurd rfl hne
  | cons f gs ih =>
    cases gs with
    | nil => exact splitFields_no_comma f (hc f (by simp))
    | cons g gs' =>
      rw [joinComma, splitFields_append_comma f _ (hc f (by simp)),
        ih (by simp) (fun v hv => hc v (by simp [hv]))]

theorem readLoop_eq_take (avail : List Nat) (idx : Nat) :
    readLoop avail idx = avail.take (CRUMBS_MESSAGE_SIZE - idx) := by
  induction avail generalizing idx with
  | nil => simp [readLoop]
  | cons b rest ih =>
    rw [readLoop]
    by_cases h : idx < CRUMBS_MESSAGE_SIZE
    · rw [if_pos h, ih (idx + 1),
        show CRUMBS_MESSAGE_SIZE - idx = (CRUMBS_MESSAGE_SIZE - (idx + 1)) + 1 from by
          simp only [CRUMBS_MESSAGE_SIZE] at h ⊢; omega]
      rfl
    · rw [if_neg h,
        show CRUMBS_MESSAGE_SIZE - idx = 0 from by
          simp only [CRUMBS_MESSAGE_SIZE] at h ⊢; omega]
      rfl

theorem getD_take (l : List Nat) (n i : Nat) (d : Nat) (h : i < n) :
    (l.take n).getD i d = l.getD i d := by
  induction l generalizing n i with
  | nil => simp
  | cons a t ih =>
    cases n with
    | zero => omega
    | succ n' =>
      cases i with
      | zero => simp [List.getD]
      | succ i' => simpa [List.getD] using ih n' i' (by omega)

theorem getD_take_q (l : List (List Char)) (n i : Nat) (d : List Char) (h : i < n) :
    (l.take n).getD i d = l.getD i d := by
  induction l generalizing n i with
  | nil => simp
  | cons a t ih =>
    cases n with
    | zero => omega
    | succ n' =>
      cases i with
      | zero => simp [List.getD]
      | succ i' => simpa [List.getD] using ih n' i' (by omega)

theorem leVal_bytesLE (x : Nat) (h : x < 2 ^ 32) :
    leVal (x % 256) (x / 256 % 256) (x / 65536 % 256) (x / 16777216 % 256) = x := by
  unfold leVal
  omega

theorem dropWhile_append_cons (p : Char → Bool) (u v : List Char) (c : Char)
    (h : p c = false) :
    (u ++ c :: v).dropWhile p = u.dropWhile p ++ c :: v := by
  induction u with
  | nil => simp [List.dropWhile, h]
  | cons a u ih =>
    by_cases ha : p a
    · simp [List.dropWhile_cons, ha, ih]
    · simp [List.dropWhile_cons, ha]

theorem trimRight_requestLit (s : List Char) :
    trimRight (requestLit ++ s) = requestLit ++ trimRight s := by
  unfold trimRight
  rw [List.reverse_append,
    show requestLit.reverse = '=' :: ['t', 's', 'e', 'u', 'q', 'e', 'r'] from rfl,
    dropWhile_append_cons _ _ _ _ (show isSpaceChar '=' = false from rfl),
    List.reverse_append,
    show ('=' :: ['t', 's', 'e', 'u', 'q', 'e', 'r']).reverse = requestLit from rfl]

theorem dropWhile_idem (p : Char → Bool) (l : List Char) :
    (l.dropWhile p).dropWhile p = l.dropWhile p := by
  induction l with
  | nil => rfl
  | cons a t ih =>
    by_cases ha : p a
    · simp [List.dropWhile_cons, ha, ih]
    · simp [List.dropWhile_cons, ha]

theorem trimRight_idem (l : List Char) : trimRight (trimRight l) = trimRight l := by
  unfold trimRight
  rw [List.reverse_reverse, dropWhile_idem]

theorem trimRight_of_trim_eq {s : List Char} (h : trim s = s) : trimRight s = s := by
  conv_lhs => rw [← h]
  rw [trim, trimRight_idem]
  exact h

theorem takeWhile_nil_of_headD (p : Char → Bool) (u : List Char)
    (h : p (u.headD ' ') = false) : u.takeWhile p = [] := by
  cases u with
  | nil => rfl
  | cons c r => simp only [List.headD_cons] at h; simp [List.takeWhile_cons, h]

theorem atol_of_not_intNumeric (v : List Char) (h : intNumeric v = false) :
    atol v = 0 := by
  rw [atol, takeWhile_nil_of_headD _ _ h]
  simp [decNat]

theorem dropWhile_of_headD (p : Char → Bool) (u : List Char)
    (h : p (u.headD ' ') = false) : u.dropWhile p = u := by
  cases u with
  | nil => rfl
  | cons c r => simp only [List.headD_cons] at h; simp [List.dropWhile_cons, h]

theorem fracQ_nil : fracQ [] = 0 := by
  simp [fracQ, decNat]

theorem atofQ_of_not_floatNumeric (v : List Char) (h : floatNumeric v = false) :
    atofQ v = 0 := by
  rw [floatNumeric, Bool.or_eq_false_iff, Bool.and_eq_false_iff] at h
  obtain ⟨h1, h2⟩ := h
  rw [atofQ, parseUnsignedQ, takeWhile_nil_of_headD _ _ h1,
    dropWhile_of_headD _ _ h1]
  rcases h2 with h2 | h2
  · rw [if_neg (by simpa using h2)]
    simp [decNat]
  · by_cases hdot : (signSplit (v.dropWhile isSpaceChar)).2.take 1 = ['.']
    · rw [if_pos hdot, takeWhile_nil_of_headD _ _ h2, fracQ_nil]
      simp [decNat]
    · rw [if_neg hdot]
      simp [decNat]

/-! Claim theorems. -/

/-- C1: for every in-range Message, decoding the buffer produced by encoding
it, with length 28, succeeds and yields the same Message field for field
(the float payload is carried as 32-bit patterns, so equality is bit-exact),
and the encoded form is always exactly 28 bytes. -/
theorem roundTrip_encode_decode (m : WireMessage) (h : validWire m) :
    decodeMessage (encodeMessage m) CRUMBS_MESSAGE_SIZE = some m ∧
    (encodeMessage m).length = CRUMBS_MESSAGE_SIZE := by
  obtain ⟨h1, h2, h3, d0, d1, d2, d3, d4, d5, he⟩ := h
  refine ⟨?_, rfl⟩
  cases m with
  | mk s t c a0 a1 a2 a3 a4 a5 e =>
    rw [decodeMessage, if_neg (by omega)]
    refine congrArg some ?_
    simp only [WireMessage.mk.injEq]
    refine ⟨rfl, rfl, rfl, ?_, ?_, ?_, ?_, ?_, ?_, rfl⟩
    · exact leVal_bytesLE a0 d0
    · exact leVal_bytesLE a1 d1
    · exact leVal_bytesLE a2 d2
    · exact leVal_bytesLE a3 d3
    · exact leVal_bytesLE a4 d4
    · exact leVal_bytesLE a5 d5

/-- Witness for C1 at a concrete message. -/
theorem roundTrip_encode_decode_check :
    validWire ⟨1, 2, 3, 1092616192, 1065353216, 0, 1115684864, 1073741824,
        1088421888, 7⟩ ∧
    decodeMessage
        (encodeMessage ⟨1, 2, 3, 1092616192, 1065353216, 0, 1115684864,
          1073741824, 1088421888, 7⟩) CRUMBS_MESSAGE_SIZE
      = some ⟨1, 2, 3, 1092616192, 1065353216, 0, 1115684864, 1073741824,
          1088421888, 7⟩ :=
  ⟨by decide, (roundTrip_encode_decode _ (by decide)).1⟩

/-- C2 (code refutation): parseSerialInput does not reset sliceID — on input
"8,1,1,75.0" with the output message previously holding sliceID 7, parsing
succeeds and the returned message still carries sliceID 7, not the zero
default the documentation promises for every field. -/
theorem sliceID_left_unreset :
    (parseSerialInput (("8,1,1,75.0").toList) ⟨7, 9, 9, 1, 1, 1, 1, 1, 1, 9⟩).map
        (fun p => p.2.sliceID) = some 7 := by
  with_unfolding_all rfl

/-- C3: decode fails for every length below 28 regardless of the buffer
contents, and on the request path a short read (fewer than 28 bytes
available) makes the decode result of requestResponse none, so no partial
Message is produced. -/
theorem decode_truncated_fails (buf : List Nat) (n : Nat) (addr : Nat)
    (avail : List Nat) (hn : n < CRUMBS_MESSAGE_SIZE)
    (ha : avail.length < CRUMBS_MESSAGE_SIZE) :
    decodeMessage buf n = none ∧ (requestResponse addr avail).2.2 = none := by
  constructor
  · rw [decodeMessage, if_pos hn]
  · have hlen : (readLoop avail 0).length < CRUMBS_MESSAGE_SIZE := by
      rw [readLoop_eq_take, List.length_take]
      simp only [CRUMBS_MESSAGE_SIZE] at ha ⊢
      omega
    show decodeMessage (readLoop avail 0) (readLoop avail 0).length = none
    rw [decodeMessage, if_pos hlen]

/-- Witness for C3 at a concrete short buffer and short byte stream. -/
theorem decode_truncated_fails_check :
    decodeMessage [1, 2, 3] 3 = none ∧ (requestResponse 8 [1, 2, 3]).2.2 = none :=
  decode_truncated_fails [1, 2, 3] 3 8 [1, 2, 3] (by decide) (by decide)

/-- C4: parsing fails exactly when the line has fewer than 4 comma-delimited
fields, and succeeds in every other case; the field count of a line is its
comma count plus one, empty segments included. -/
theorem parse_insufficient_fields_iff (input : List Char) (m0 : CRUMBSMessage) :
    (parseSerialInput input m0 = none ↔ (splitFields input).length < 4) ∧
    (splitFields input).length = input.count ',' + 1 := by
  refine ⟨?_, splitFields_length input⟩
  rw [parseSerialInput_eq]
  by_cases h : (splitFields input).length < 4
  · simp [h]
  · simp [h]

/-- C5: each requestResponse call issues exactly one read request, for
exactly 28 bytes from the given address, inserts the fixed settling delay,
collects available bytes one at a time until 28 are stored or none remain
(the buffer is the first min(28, available) bytes, with no retry), and hands
exactly that buffer and its exact length to decode. -/
theorem requestResponse_single_attempt (addr : Nat) (avail : List Nat) :
    (requestResponse addr avail).1.filter isRequestEvent
        = [BusEvent.requestFrom addr CRUMBS_MESSAGE_SIZE] ∧
    BusEvent.delayMs 50 ∈ (requestResponse addr avail).1 ∧
    (requestResponse addr avail).2.1 = avail.take CRUMBS_MESSAGE_SIZE ∧
    ((requestResponse addr avail).2.1).length = min CRUMBS_MESSAGE_SIZE avail.length ∧
    (requestResponse addr avail).2.2
      = decodeMessage ((requestResponse addr avail).2.1)
          ((requestResponse addr avail).2.1).length := by
  refine ⟨rfl, by simp [requestResponse], ?_, ?_, rfl⟩
  · show readLoop avail 0 = _
    rw [readLoop_eq_take, Nat.sub_zero]
  · show (readLoop avail 0).length = _
    rw [readLoop_eq_take, Nat.sub_zero, List.length_take]

/-- C6: a line of the form request=(address) takes the read-request path and
builds no Message; the address text is parsed as hexadecimal exactly when it
starts with 0x or 0X and as decimal otherwise, and the concrete lines
request=0x08 and request=8 both resolve to target address 8. -/
theorem requestPath_hex_or_decimal (s : List Char) (m0 m1 : CRUMBSMessage)
    (h : trim s = s) :
    handleSerialInput (requestLit ++ s) m0 = MasterAction.request (parseAddress s) ∧
    ((startsWithL ['0', 'x'] s || startsWithL ['0', 'X'] s) = true →
      parseAddress s = u8 (strtolHex s)) ∧
    ((startsWithL ['0', 'x'] s || startsWithL ['0', 'X'] s) = false →
      parseAddress s = u8 (atol s)) ∧
    handleSerialInput (("request=0x08").toList) m1 = MasterAction.request 8 ∧
    handleSerialInput (("request=8").toList) m1 = MasterAction.request 8 := by
  refine ⟨?_, ?_, ?_, by with_unfolding_all rfl, by with_unfolding_all rfl⟩
  · have e1 : trim (requestLit ++ s) = requestLit ++ s := by
      rw [trim, show trimLeft (requestLit ++ s) = requestLit ++ s from by
          with_unfolding_all rfl,
        trimRight_requestLit, trimRight_of_trim_eq h]
    have e2 : startsWithL requestLit (requestLit ++ s) = true := by
      rw [startsWithL, List.take_left]
      simp
    rw [handleSerialInput, e1, if_pos e2,
      show (requestLit ++ s).drop 8 = s from List.drop_left' rfl, h]
  · intro hb
    rw [parseAddress, if_pos hb]
  · intro hb
    rw [parseAddress, if_neg (by simp [hb])]

/-- Witness for C6 at the two concrete request lines. -/
theorem requestPath_hex_or_decimal_check :
    handleSerialInput (("request=0x08").toList)
        (⟨0, 0, 0, 0, 0, 0, 0, 0, 0, 0⟩ : CRUMBSMessage) = MasterAction.request 8 ∧
    handleSerialInput (("request=8").toList)
        (⟨0, 0, 0, 0, 0, 0, 0, 0, 0, 0⟩ : CRUMBSMessage) = MasterAction.request 8 :=
  ⟨(requestPath_hex_or_decimal (("0x08").toList) ⟨0, 0, 0, 0, 0, 0, 0, 0, 0, 0⟩
      ⟨0, 0, 0, 0, 0, 0, 0, 0, 0, 0⟩ (by decide)).2.2.2.1,
   (requestPath_hex_or_decimal (("8").toList) ⟨0, 0, 0, 0, 0, 0, 0, 0, 0, 0⟩
      ⟨0, 0, 0, 0, 0, 0, 0, 0, 0, 0⟩ (by decide)).2.2.2.2⟩

/-- C7: a non-numeric integer field parses as 0 after the 8-bit cast, a
non-numeric float field parses as 0.0, malformed fields never make parsing
fail (every line with at least 4 fields succeeds), and parsing
"8,1,1,abc,2.0,3.0,4.0,5.0,6.0,0" succeeds with data0 = 0. -/
theorem parse_numeric_tolerance (v w input : List Char) (m0 : CRUMBSMessage)
    (hv : intNumeric v = false) (hw : floatNumeric w = false)
    (hlen : 4 ≤ (splitFields input).length) :
    u8 (atol v) = 0 ∧ atofQ w = 0 ∧
    (parseSerialInput input m0).isSome = true ∧
    (parseSerialInput (("8,1,1,abc,2.0,3.0,4.0,5.0,6.0,0").toList) m0).map
        (fun p => (p.1, p.2.typeID, p.2.commandType, p.2.data0, p.2.data1,
                   p.2.data2, p.2.data3, p.2.data4, p.2.data5, p.2.errorFlags))
      = some (8, 1, 1, 0, 2, 3, 4, 5, 6, 0) := by
  refine ⟨?_, atofQ_of_not_floatNumeric w hw, ?_, ?_⟩
  · rw [atol_of_not_intNumeric v hv]
    rfl
  · rw [parseSerialInput_eq, if_neg (by omega)]
    rfl
  · with_unfolding_all rfl

/-- Witness for C7 at the concrete non-numeric text abc and the example
line. -/
theorem parse_numeric_tolerance_check :
    u8 (atol (("abc").toList)) = 0 ∧ atofQ (("abc").toList) = 0 ∧
    (parseSerialInput (("8,1,1,abc,2.0,3.0,4.0,5.0,6.0,0").toList)
        (⟨0, 0, 0, 0, 0, 0, 0, 0, 0, 0⟩ : CRUMBSMessage)).isSome = true ∧
    (parseSerialInput (("8,1,1,abc,2.0,3.0,4.0,5.0,6.0,0").toList)
        (⟨0, 0, 0, 0, 0, 0, 0, 0, 0, 0⟩ : CRUMBSMessage)).map
        (fun p => (p.1, p.2.typeID, p.2.commandType, p.2.data0, p.2.data1,
                   p.2.data2, p.2.data3, p.2.data4, p.2.data5, p.2.errorFlags))
      = some (8, 1, 1, 0, 2, 3, 4, 5, 6, 0) :=
  parse_numeric_tolerance (("abc").toList) (("abc").toList)
    (("8,1,1,abc,2.0,3.0,4.0,5.0,6.0,0").toList) ⟨0, 0, 0, 0, 0, 0, 0, 0, 0, 0⟩
    (by decide) (by decide) (by decide)

/-- C8: a line supplying only the first k comma-free fields, 4 ≤ k ≤ 9,
parses successfully and every omitted trailing field of the result is zero;
in particular "8,1,1,75.0" yields address 8, typeID 1, commandType 1,
data0 = 75, data1..5 = 0 and errorFlags 0. -/
theorem parse_trailing_defaults (fs : List (List Char)) (m0 : CRUMBSMessage)
    (hc : ∀ v ∈ fs, (',') ∉ v) (h4 : 4 ≤ fs.length) (h9 : fs.length ≤ 9) :
    (∃ a m, parseSerialInput (joinComma fs) m0 = some (a, m) ∧
      (fs.length ≤ 4 → m.data1 = 0) ∧ (fs.length ≤ 5 → m.data2 = 0) ∧
      (fs.length ≤ 6 → m.data3 = 0) ∧ (fs.length ≤ 7 → m.data4 = 0) ∧
      (fs.length ≤ 8 → m.data5 = 0) ∧ m.errorFlags = 0) ∧
    (parseSerialInput (("8,1,1,75.0").toList) m0).map
        (fun p => (p.1, p.2.typeID, p.2.commandType, p.2.data0, p.2.data1,
                   p.2.data2, p.2.data3, p.2.data4, p.2.data5, p.2.errorFlags))
      = some (8, 1, 1, 75, 0, 0, 0, 0, 0, 0) := by
  constructor
  · have hsf : splitFields (joinComma fs) = fs :=
      splitFields_joinComma fs (by intro he; subst he; simp at h4) hc
    refine ⟨u8 (atol (fs.getD 0 [])), parsedMessage fs m0, ?_, ?_, ?_, ?_, ?_, ?_, ?_⟩
    · rw [parseSerialInput_eq, hsf, if_neg (by omega)]
    · intro hk
      show atofQ (fs.getD 4 []) = 0
      rw [List.getD_eq_default _ _ (by omega), atofQ_nil]
    · intro hk
      show atofQ (fs.getD 5 []) = 0
      rw [List.getD_eq_default _ _ (by omega), atofQ_nil]
    · intro hk
      show atofQ (fs.getD 6 []) = 0
      rw [List.getD_eq_default _ _ (by omega), atofQ_nil]
    · intro hk
      show atofQ (fs.getD 7 []) = 0
      rw [List.getD_eq_default _ _ (by omega), atofQ_nil]
    · intro hk
      show atofQ (fs.getD 8 []) = 0
      rw [List.getD_eq_default _ _ (by omega), atofQ_nil]
    · show u8 (atol (fs.getD 9 [])) = 0
      rw [List.getD_eq_default _ _ (by omega), u8_atol_nil]
  · with_unfolding_all rfl

/-- Witness for C8 at the concrete line "8,1,1,75.0". -/
theorem parse_trailing_defaults_check :
    (parseSerialInput (("8,1,1,75.0").toList)
        (⟨0, 0, 0, 0, 0, 0, 0, 0, 0, 0⟩ : CRUMBSMessage)).map
        (fun p => (p.1, p.2.typeID, p.2.commandType, p.2.data0, p.2.data1,
                   p.2.data2, p.2.data3, p.2.data4, p.2.data5, p.2.errorFlags))
      = some (8, 1, 1, 75, 0, 0, 0, 0, 0, 0) :=
  (parse_trailing_defaults [['8'], ['1'], ['1'], ['7', '5', '.', '0']]
    ⟨0, 0, 0, 0, 0, 0, 0, 0, 0, 0⟩ (by decide) (by decide) (by decide)).2

/-- C9: on a line with more than 10 comma-free fields every field after the
tenth is ignored — the parse result is identical to the parse of the line
truncated to its first 10 fields. -/
theorem parse_extra_fields_ignored (fs : List (List Char)) (m0 : CRUMBSMessage)
    (hc : ∀ v ∈ fs, (',') ∉ v) (h : 10 < fs.length) :
    parseSerialInput (joinComma fs) m0
      = parseSerialInput (joinComma (fs.take 10)) m0 := by
  have hne : fs ≠ [] := by intro he; subst he; simp at h
  have hne10 : fs.take 10 ≠ [] := by
    intro he
    have hlen := congrArg List.length he
    simp only [List.length_take, List.length_nil] at hlen
    omega
  have hc10 : ∀ v ∈ fs.take 10, (',') ∉ v :=
    fun v hv => hc v (List.take_subset 10 fs hv)
  rw [parseSerialInput_eq, parseSerialInput_eq,
    splitFields_joinComma fs hne hc, splitFields_joinComma _ hne10 hc10]
  have hl10 : (fs.take 10).length = 10 := by
    rw [List.length_take]
    omega
  rw [if_neg (by omega), if_neg (by omega)]
  simp only [parsedMessage]
  rw [getD_take_q fs 10 0 [] (by omega), getD_take_q fs 10 1 [] (by omega),
    getD_take_q fs 10 2 [] (by omega), getD_take_q fs 10 3 [] (by omega),
    getD_take_q fs 10 4 [] (by omega), getD_take_q fs 10 5 [] (by omega),
    getD_take_q fs 10 6 [] (by omega), getD_take_q fs 10 7 [] (by omega),
    getD_take_q fs 10 8 [] (by omega), getD_take_q fs 10 9 [] (by omega)]

/-- Witness for C9 at a concrete 11-field line. -/
theorem parse_extra_fields_ignored_check :
    parseSerialInput
        (joinComma [['1'], ['2'], ['3'], ['4'], ['5'], ['6'], ['7'], ['8'],
          ['9'], ['1'], ['2']]) (⟨0, 0, 0, 0, 0, 0, 0, 0, 0, 0⟩ : CRUMBSMessage)
      = parseSerialInput
        (joinComma ([['1'], ['2'], ['3'], ['4'], ['5'], ['6'], ['7'], ['8'],
          ['9'], ['1'], ['2']].take 10)) ⟨0, 0, 0, 0, 0, 0, 0, 0, 0, 0⟩ :=
  parse_extra_fields_ignored
    [['1'], ['2'], ['3'], ['4'], ['5'], ['6'], ['7'], ['8'], ['9'], ['1'], ['2']]
    ⟨0, 0, 0, 0, 0, 0, 0, 0, 0, 0⟩ (by decide) (by decide)

/-- C10 (counterexample): parsing ",,," succeeds with address 0, but the
resulting Message is not all-zero-field — with the output message previously
holding sliceID 7 the parsed message still carries sliceID 7. -/
theorem positional_allzero_counterexample :
    (parseSerialInput ((",,,").toList) ⟨7, 9, 9, 1, 1, 1, 1, 1, 1, 9⟩).map
        (fun p => (p.1, p.2.sliceID)) = some (0, 7) := by
  with_unfolding_all rfl

/-- C10 (amended): field presence is purely positional — every line with at
least 3 commas parses successfully, and ",,," parses to address 0 with every
parser-written field zero while sliceID keeps the prior value of the output
message. -/
theorem positional_fields (input : List Char) (m0 : CRUMBSMessage)
    (h : 3 ≤ input.count ',') :
    (parseSerialInput input m0).isSome = true ∧
    (∀ m1 : CRUMBSMessage, parseSerialInput ((",,,").toList) m1
      = some (0, resetMessage m1)) := by
  constructor
  · rw [parseSerialInput_eq, if_neg (by rw [splitFields_length]; omega)]
    rfl
  · intro m1
    with_unfolding_all rfl

/-- Witness for C10 at the concrete line ",,," with a nonzero prior
sliceID. -/
theorem positional_fields_check :
    (parseSerialInput ((",,,").toList)
        (⟨5, 0, 0, 0, 0, 0, 0, 0, 0, 0⟩ : CRUMBSMessage)).isSome = true :=
  (positional_fields ((",,,").toList) ⟨5, 0, 0, 0, 0, 0, 0, 0, 0, 0⟩ (by decide)).1
